import Mathlib

/-!
Shallow embedding of the RAG engine of this repository
(scripts/rag_engine.py): the text chunker, the chunk-id assigner, document
indexing with its delete-before-insert protocol, and the query similarity
filter.  Python strings are modelled as lists of characters, the stateful
vector store as an explicit list of records threaded through the
operations, and the external collaborators (document loader, embedding
model, vector-store add) as parameters of Except type so that their
failure modes can be analysed.  The possibly non-terminating while-loop of
the chunker is modelled with explicit fuel: a none result means the Python
loop is still running after that many iterations.
-/

/-- Python strings as lists of characters. -/
abbrev PyStr := List Char

/-- The ASCII whitespace characters removed by Python str.strip(). -/
def isPySpace (c : Char) : Bool :=
  c == ' ' || c == '\t' || c == '\n' || c == '\r' || c == '\x0b' || c == '\x0c'

/-- Python s.lstrip(): drop leading whitespace. -/
def lstrip (s : PyStr) : PyStr := s.dropWhile isPySpace

/-- Python s.rstrip(): drop trailing whitespace. -/
def rstrip (s : PyStr) : PyStr := (s.reverse.dropWhile isPySpace).reverse

/-- Python s.strip(): drop whitespace at both ends. -/
def strip (s : PyStr) : PyStr := rstrip (lstrip s)

/-- Resolve one endpoint of a Python slice against a string of length n:
negative indices count from the end (clamped at 0), others are clamped
at n. -/
def pyIdx (n : Nat) (i : Int) : Nat :=
  if i < 0 then ((n : Int) + i).toNat else min i.toNat n

/-- Python slice s[i:j]. -/
def pySlice (s : PyStr) (i j : Int) : PyStr :=
  (s.drop (pyIdx s.length i)).take (pyIdx s.length j - pyIdx s.length i)

/-- Python s.rfind(pat): the greatest index at which pat occurs as a
substring of s, or -1 when it does not occur. -/
def pyRfind (s pat : PyStr) : Int :=
  match ((List.range (s.length + 1)).filter fun i => pat.isPrefixOf (s.drop i)).getLast? with
  | some i => (i : Int)
  | none => -1

/-- The sentence separators tried by _split_text, in source order. -/
def seps : List PyStr :=
  ["。".toList, "！".toList, "？".toList, "\n\n".toList,
   "\n".toList, ".".toList, "!".toList, "?".toList]

/-- The boundary-snapping for-loop of _split_text: the first separator whose
last occurrence lies beyond chunk_size // 2 truncates the window just after
that occurrence; otherwise the window is kept. -/
def snapBoundary (chunk : PyStr) (chunk_size : Nat) : PyStr :=
  match seps.find? (fun sep => ((chunk_size / 2 : Nat) : Int) < pyRfind chunk sep) with
  | some sep => chunk.take ((pyRfind chunk sep).toNat + 1)
  | none => chunk

/-- The while-loop of _split_text, with fuel.  start is an Int because the
Python advance len(chunk) - chunk_overlap may be negative.  A none result
means the Python loop has not finished within the given fuel. -/
def splitLoop (text : PyStr) (chunk_size chunk_overlap : Nat) :
    Nat → Int → List PyStr → Option (List PyStr)
  | 0, _, _ => none
  | fuel + 1, start, acc =>
    if start < (text.length : Int) then
      let chunk0 := pySlice text start (start + (chunk_size : Int))
      let chunk :=
        if start + (chunk_size : Int) < (text.length : Int) then
          snapBoundary chunk0 chunk_size
        else chunk0
      splitLoop text chunk_size chunk_overlap fuel
        (start + (chunk.length : Int) - (chunk_overlap : Int)) (acc ++ [strip chunk])
    else
      some acc

/-- _split_text: short-circuit for short texts, else the windowed loop
followed by the blank-chunk filter. -/
def pySplitText (text : PyStr) (chunk_size chunk_overlap : Nat) (fuel : Nat) :
    Option (List PyStr) :=
  if text.length ≤ chunk_size then some [text]
  else (splitLoop text chunk_size chunk_overlap fuel 0 []).map
    (fun cks => cks.filter fun c => !(strip c).isEmpty)

/-! ### Decimal rendering (Python str(i) for a nonnegative int) -/

/-- Little-endian decimal digits, with structural fuel (fuel ≥ n suffices). -/
def decimalAux : Nat → Nat → List Nat
  | 0, _ => []
  | fuel + 1, n => if n = 0 then [] else n % 10 :: decimalAux fuel (n / 10)

/-- The sixteen lowercase hex digit characters. -/
def hexChars : PyStr := "0123456789abcdef".toList

/-- Python str(n) for a natural number. -/
def decimal (n : Nat) : PyStr :=
  if n = 0 then ['0']
  else ((decimalAux n n).map fun d => hexChars.getD d '0').reverse

/-! ### MD5 (hashlib.md5) over lists of byte values -/

/-- UTF-8 encoding of one character (Python str.encode()). -/
def utf8Bytes (c : Char) : List Nat :=
  let n := c.toNat
  if n < 128 then [n]
  else if n < 2048 then [192 + n / 64, 128 + n % 64]
  else if n < 65536 then [224 + n / 4096, 128 + n / 64 % 64, 128 + n % 64]
  else [240 + n / 262144, 128 + n / 4096 % 64, 128 + n / 64 % 64, 128 + n % 64]

/-- UTF-8 bytes of a string. -/
def strBytes (s : PyStr) : List Nat := s.flatMap utf8Bytes

/-- The 64 MD5 sine-derived constants. -/
def md5K : List Nat :=
  [0xd76aa478, 0xe8c7b756, 0x242070db, 0xc1bdceee,
   0xf57c0faf, 0x4787c62a, 0xa8304613, 0xfd469501,
   0x698098d8, 0x8b44f7af, 0xffff5bb1, 0x895cd7be,
   0x6b901122, 0xfd987193, 0xa679438e, 0x49b40821,
   0xf61e2562, 0xc040b340, 0x265e5a51, 0xe9b6c7aa,
   0xd62f105d, 0x02441453, 0xd8a1e681, 0xe7d3fbc8,
   0x21e1cde6, 0xc33707d6, 0xf4d50d87, 0x455a14ed,
   0xa9e3e905, 0xfcefa3f8, 0x676f02d9, 0x8d2a4c8a,
   0xfffa3942, 0x8771f681, 0x6d9d6122, 0xfde5380c,
   0xa4beea44, 0x4bdecfa9, 0xf6bb4b60, 0xbebfbc70,
   0x289b7ec6, 0xeaa127fa, 0xd4ef3085, 0x04881d05,
   0xd9d4d039, 0xe6db99e5, 0x1fa27cf8, 0xc4ac5665,
   0xf4292244, 0x432aff97, 0xab9423a7, 0xfc93a039,
   0x655b59c3, 0x8f0ccc92, 0xffeff47d, 0x85845dd1,
   0x6fa87e4f, 0xfe2ce6e0, 0xa3014314, 0x4e0811a1,
   0xf7537e82, 0xbd3af235, 0x2ad7d2bb, 0xeb86d391]

/-- The 64 MD5 per-round left-rotation amounts. -/
def md5S : List Nat :=
  [7, 12, 17, 22, 7, 12, 17, 22, 7, 12, 17, 22, 7, 12, 17, 22,
   5, 9, 14, 20, 5, 9, 14, 20, 5, 9, 14, 20, 5, 9, 14, 20,
   4, 11, 16, 23, 4, 11, 16, 23, 4, 11, 16, 23, 4, 11, 16, 23,
   6, 10, 15, 21, 6, 10, 15, 21, 6, 10, 15, 21, 6, 10, 15, 21]

/-- Rotate a 32-bit value (given as a Nat below 2^32) left by s bits. -/
def rotl32 (x s : Nat) : Nat := ((x <<< s) % 2 ^ 32) ||| (x >>> (32 - s))

/-- The MD5 round function for operation index i. -/
def md5F (i b c d : Nat) : Nat :=
  if i < 16 then (b &&& c) ||| ((b ^^^ 0xffffffff) &&& d)
  else if i < 32 then (d &&& b) ||| ((d ^^^ 0xffffffff) &&& c)
  else if i < 48 then b ^^^ c ^^^ d
  else c ^^^ (b ||| (d ^^^ 0xffffffff))

/-- The MD5 message-word index for operation index i. -/
def md5G (i : Nat) : Nat :=
  if i < 16 then i
  else if i < 32 then (5 * i + 1) % 16
  else if i < 48 then (3 * i + 5) % 16
  else (7 * i) % 16

/-- One MD5 operation on the running (A, B, C, D) state. -/
def md5Step (M : List Nat) (st : Nat × Nat × Nat × Nat) (i : Nat) :
    Nat × Nat × Nat × Nat :=
  let (a, b, c, d) := st
  let f := (md5F i b c d + a + md5K.getD i 0 + M.getD (md5G i) 0) % 2 ^ 32
  (d, (b + rotl32 f (md5S.getD i 0)) % 2 ^ 32, b, c)

/-- Process one 64-byte block: decode sixteen little-endian words, run the
64 operations, and add the result into the incoming state mod 2^32. -/
def md5Block (st : Nat × Nat × Nat × Nat) (block : List Nat) :
    Nat × Nat × Nat × Nat :=
  let M := (List.range 16).map fun j =>
    block.getD (4 * j) 0 + 256 * block.getD (4 * j + 1) 0 +
      65536 * block.getD (4 * j + 2) 0 + 16777216 * block.getD (4 * j + 3) 0
  let r := (List.range 64).foldl (md5Step M) st
  ((st.1 + r.1) % 2 ^ 32, (st.2.1 + r.2.1) % 2 ^ 32,
   (st.2.2.1 + r.2.2.1) % 2 ^ 32, (st.2.2.2 + r.2.2.2) % 2 ^ 32)

/-- MD5 padding: a 0x80 byte, zeros up to 56 mod 64, then the bit length as
eight little-endian bytes. -/
def md5Pad (msg : List Nat) : List Nat :=
  let padLen := (119 - msg.length % 64) % 64
  let bitLen := (8 * msg.length) % 2 ^ 64
  msg ++ [128] ++ List.replicate padLen 0 ++
    (List.range 8).map fun i => bitLen / 2 ^ (8 * i) % 256

/-- The four little-endian bytes of a 32-bit word. -/
def toLEBytes4 (w : Nat) : List Nat :=
  [w % 256, w / 256 % 256, w / 65536 % 256, w / 16777216 % 256]

/-- The sixteen MD5 digest bytes of a byte-level message. -/
def md5Digest (msg : List Nat) : List Nat :=
  let padded := md5Pad msg
  let blocks := (List.range (padded.length / 64)).map fun i =>
    (padded.drop (64 * i)).take 64
  let r := blocks.foldl md5Block (0x67452301, 0xefcdab89, 0x98badcfe, 0x10325476)
  toLEBytes4 r.1 ++ toLEBytes4 r.2.1 ++ toLEBytes4 r.2.2.1 ++ toLEBytes4 r.2.2.2

/-- One lowercase hex digit character for a nibble. -/
def hexDigit (k : Nat) : Char := hexChars.getD (k % 16) '0'

/-- Lowercase hex encoding of a list of byte values. -/
def hexEncode (bs : List Nat) : PyStr :=
  bs.flatMap fun b => [hexDigit (b / 16), hexDigit b]

/-- hashlib.md5(s.encode()).hexdigest(). -/
def md5hex (s : PyStr) : PyStr := hexEncode (md5Digest (strBytes s))

/-- _get_doc_id: the first eight hex characters of the md5 of the path,
an underscore, and the decimal chunk index. -/
def getDocId (path : PyStr) (i : Nat) : PyStr :=
  (md5hex path).take 8 ++ ['_'] ++ decimal i

/-! ### Store model and indexing -/

/-- The metadata fields the engine itself consults.  The loader's
format-specific extras (section, page, sheet, rows) are never read by the
engine and are omitted. -/
structure Meta where
  source : PyStr
  filename : PyStr
deriving DecidableEq

/-- A raw chunk as produced by the document loader. -/
structure RawChunk where
  text : PyStr
  meta : Meta
deriving DecidableEq

/-- One stored (id, embedding, document, metadata) tuple. -/
structure Record where
  id : PyStr
  embedding : List ℚ
  text : PyStr
  meta : Meta
deriving DecidableEq

/-- The vector-store collection as an explicit list of records. -/
abbrev Store := List Record

/-- The structured result of index_document. -/
structure IndexResult where
  success : Bool
  chunks : Nat
  message : PyStr
deriving DecidableEq

/-- Path(p).name: the final path component. -/
def pyName (p : PyStr) : PyStr := (p.reverse.takeWhile fun c => c != '/').reverse

/-- delete_document's match test on one stored metadata: source equals the
path, or filename equals the path's basename. -/
def matchesDoc (path : PyStr) (m : Meta) : Bool :=
  m.source == path || m.filename == pyName path

/-- The ids_to_delete list collected by delete_document. -/
def idsToDelete (path : PyStr) (store : Store) : List PyStr :=
  (store.filter fun r => matchesDoc path r.meta).map Record.id

/-- delete_document's effect on the store: delete every record whose id was
collected. -/
def deleteDocStore (path : PyStr) (store : Store) : Store :=
  store.filter fun r => !(idsToDelete path store).contains r.id

/-- The chunk-flattening loop of index_document: split each raw chunk and
keep the sub-chunks that are non-blank after stripping, paired with the
parent metadata.  none propagates a chunker that has not finished. -/
def buildAllChunks (chunk_size chunk_overlap fuel : Nat) :
    List RawChunk → Option (List (PyStr × Meta))
  | [] => some []
  | raw :: rest =>
    match pySplitText raw.text chunk_size chunk_overlap fuel,
        buildAllChunks chunk_size chunk_overlap fuel rest with
    | some subs, some acc =>
      some (((subs.filter fun s => !(strip s).isEmpty).map fun s => (s, raw.meta)) ++ acc)
    | _, _ => none

/-- Message of the except handler of index_document. -/
def failMsg (e : PyStr) : PyStr := "索引失敗：".toList ++ e

/-- Message of the empty-content early return of index_document. -/
def emptyMsg : PyStr := "文件內容為空".toList

/-- Message of the success return of index_document. -/
def okMsg (n : Nat) : PyStr := "成功索引 ".toList ++ decimal n ++ " 個片段".toList

/-- The records inserted by collection.add: position i gets id
_get_doc_id(path, i), the i-th embedding, text and metadata. -/
def newRecords (path : PyStr) (allChunks : List (PyStr × Meta))
    (embs : List (List ℚ)) : Store :=
  (List.range allChunks.length).map fun i =>
    let c := allChunks.getD i ([], ⟨[], []⟩)
    ⟨getDocId path i, embs.getD i [], c.1, c.2⟩

/-- The tail of index_document after the flattened chunks are known to be
non-empty: embed (may fail), then delete the old generation, then add
(may fail). -/
def afterEmbed (path : PyStr) (allChunks : List (PyStr × Meta))
    (embR : Except PyStr (List (List ℚ))) (addR : Except PyStr Unit)
    (store : Store) : IndexResult × Store :=
  match embR with
  | .error e => (⟨false, 0, failMsg e⟩, store)
  | .ok embs =>
    let store1 := deleteDocStore path store
    match addR with
    | .error e => (⟨false, 0, failMsg e⟩, store1)
    | .ok _ =>
      (⟨true, allChunks.length, okMsg allChunks.length⟩,
        store1 ++ newRecords path allChunks embs)

/-- index_document after loading succeeded: the empty-content early return,
else the embed/delete/add tail.  none models a chunker that has not
finished within fuel. -/
def afterBuild (path : PyStr) (b : Option (List (PyStr × Meta)))
    (embedR : List PyStr → Except PyStr (List (List ℚ)))
    (addR : Except PyStr Unit) (store : Store) :
    Option (IndexResult × Store) :=
  match b with
  | none => none
  | some [] => some (⟨false, 0, emptyMsg⟩, store)
  | some (c :: cks) =>
    some (afterEmbed path (c :: cks) (embedR ((c :: cks).map Prod.fst)) addR store)

/-- index_document.  The loader outcome, the embedding call and the
store-add call are parameters; an error value models the corresponding
Python call raising, which the surrounding try/except converts into a
failure result. -/
def indexDocument (path : PyStr) (loadR : Except PyStr (List RawChunk))
    (embedR : List PyStr → Except PyStr (List (List ℚ)))
    (addR : Except PyStr Unit)
    (chunk_size chunk_overlap fuel : Nat) (store : Store) :
    Option (IndexResult × Store) :=
  match loadR with
  | .error e => some (⟨false, 0, failMsg e⟩, store)
  | .ok raws =>
    afterBuild path (buildAllChunks chunk_size chunk_overlap fuel raws)
      embedR addR store

/-- The chunks currently stored for a given source path. -/
def chunksFor (path : PyStr) (store : Store) : Store :=
  store.filter fun r => r.meta.source == path

/-! ### Query similarity scoring -/

/-- The distance-to-similarity conversion of query:
max(0.0, 1.0 - distance / 2.0). -/
def similarity (d : ℚ) : ℚ := max 0 (1 - d / 2)

/-- Python round-half-to-even to an integer. -/
def pyRound (x : ℚ) : ℤ :=
  if x - ⌊x⌋ < 1 / 2 then ⌊x⌋
  else if 1 / 2 < x - ⌊x⌋ then ⌊x⌋ + 1
  else if ⌊x⌋ % 2 = 0 then ⌊x⌋ else ⌊x⌋ + 1

/-- Python round(x, 4). -/
def round4 (x : ℚ) : ℚ := (pyRound (x * 10000) : ℚ) / 10000

/-- One nearest-neighbor hit returned by the vector store. -/
structure Hit where
  text : PyStr
  meta : Meta
  distance : ℚ
deriving DecidableEq

/-- One entry of the list returned by query. -/
structure QueryResult where
  text : PyStr
  meta : Meta
  similarity : ℚ
deriving DecidableEq

/-- The result-assembly loop of query: convert each hit's distance to a
similarity, keep it when similarity >= score_threshold, and store the
similarity rounded to four decimals. -/
def queryLoop (hits : List Hit) (threshold : ℚ) : List QueryResult :=
  hits.filterMap fun h =>
    let sim := similarity h.distance
    if threshold ≤ sim then some ⟨h.text, h.meta, round4 sim⟩ else none

/-- query: the empty-text and empty-collection short-circuits, then the
filter loop.  hits stands for the store's response to the
n_results = min(top_k, count) nearest-neighbor request. -/
def pyQuery (queryText : PyStr) (storeCount : Nat) (threshold : ℚ)
    (hits : List Hit) : List QueryResult :=
  if (strip queryText).isEmpty then []
  else if storeCount = 0 then []
  else queryLoop hits threshold

/-! ### Helper lemmas about stripping -/

lemma rstrip_eq_rdropWhile (s : PyStr) : rstrip s = s.rdropWhile isPySpace := rfl

lemma lstrip_lstrip (s : PyStr) : lstrip (lstrip s) = lstrip s :=
  List.dropWhile_idempotent isPySpace s

lemma rstrip_rstrip (s : PyStr) : rstrip (rstrip s) = rstrip s := by
  rw [rstrip_eq_rdropWhile, rstrip_eq_rdropWhile]
  exact List.rdropWhile_idempotent isPySpace s

lemma length_dropWhile_le (p : Char → Bool) (l : PyStr) :
    (l.dropWhile p).length ≤ l.length :=
  (List.dropWhile_suffix p).sublist.length_le

lemma lstrip_rstrip_lstrip (s : PyStr) :
    lstrip (rstrip (lstrip s)) = rstrip (lstrip s) := by
  have hself : lstrip (lstrip s) = lstrip s := lstrip_lstrip s
  obtain ⟨t, ht⟩ := List.rdropWhile_prefix isPySpace (lstrip s)
  rw [rstrip_eq_rdropWhile]
  cases hr : List.rdropWhile isPySpace (lstrip s) with
  | nil => rfl
  | cons a l =>
    rw [hr] at ht
    cases ha : isPySpace a with
    | false => simp [lstrip, List.dropWhile_cons, ha]
    | true =>
      exfalso
      rw [← ht] at hself
      simp only [lstrip, List.cons_append, List.dropWhile_cons, ha, if_pos] at hself
      have h1 : (List.dropWhile isPySpace (l ++ t)).length = (l ++ t).length + 1 := by
        rw [hself]; simp
      have h2 := length_dropWhile_le isPySpace (l ++ t)
      omega

/-- Python strip is idempotent. -/
lemma strip_strip (s : PyStr) : strip (strip s) = strip s := by
  unfold strip
  rw [lstrip_rstrip_lstrip, rstrip_rstrip]

lemma strip_nil : strip [] = [] := rfl

/-! ### Helper lemmas about the chunker loop -/

lemma splitLoop_stripped (text : PyStr) (cs co : Nat) :
    ∀ (fuel : Nat) (start : Int) (acc res : List PyStr),
      (∀ c ∈ acc, strip c = c) →
      splitLoop text cs co fuel start acc = some res →
      ∀ c ∈ res, strip c = c := by
  intro fuel
  induction fuel with
  | zero => intro start acc res _ h; simp [splitLoop] at h
  | succ f ih =>
    intro start acc res hacc h
    simp only [splitLoop] at h
    by_cases hs : start < (text.length : Int)
    · rw [if_pos hs] at h
      refine ih _ _ _ ?_ h
      intro c hc
      rcases List.mem_append.mp hc with h1 | h2
      · exact hacc c h1
      · rw [List.mem_singleton.mp h2]
        exact strip_strip _
    · rw [if_neg hs] at h
      obtain rfl : acc = res := Option.some.inj h
      exact hacc

/-- The concrete chunker input refuting the termination claim: five
letters, chunk_size 3, chunk_overlap 2 (a valid parameter pair). -/
def c1text : PyStr := List.replicate 5 'a'

lemma splitLoop_c1_stuck :
    ∀ (fuel : Nat) (acc : List PyStr), splitLoop c1text 3 2 fuel 3 acc = none := by
  intro fuel
  induction fuel with
  | zero => intro acc; rfl
  | succ f ih => intro acc; exact ih (acc ++ [['a', 'a']])

lemma splitLoop_c1_start2 (fuel : Nat) (acc : List PyStr) :
    splitLoop c1text 3 2 fuel 2 acc = none := by
  cases fuel with
  | zero => rfl
  | succ f => exact splitLoop_c1_stuck f (acc ++ [['a', 'a', 'a']])

lemma splitLoop_c1_start1 (fuel : Nat) (acc : List PyStr) :
    splitLoop c1text 3 2 fuel 1 acc = none := by
  cases fuel with
  | zero => rfl
  | succ f => exact splitLoop_c1_start2 f (acc ++ [['a', 'a', 'a']])

lemma splitLoop_c1_start0 (fuel : Nat) (acc : List PyStr) :
    splitLoop c1text 3 2 fuel 0 acc = none := by
  cases fuel with
  | zero => rfl
  | succ f => exact splitLoop_c1_start1 f (acc ++ [['a', 'a', 'a']])

/-- C1: the claim says that for every chunk_size > 0, every chunk_overlap
with 0 ≤ chunk_overlap < chunk_size and every text the chunker terminates,
with a per-iteration advance of start that is always ≥ 1.  The code
violates this: on the five-character text "aaaaa" with chunk_size 3 and
chunk_overlap 2 the loop reaches start = 3, where the window "aa" has
length 2 and the advance len(chunk) - chunk_overlap is 0, so start stays
at 3 forever and _split_text never returns, whatever the fuel. -/
theorem splitText_nonterminating_c1 :
    0 < 3 ∧ 0 ≤ 2 ∧ 2 < 3 ∧
      ∀ fuel : Nat, pySplitText c1text 3 2 fuel = none := by
  refine ⟨by norm_num, by norm_num, by norm_num, fun fuel => ?_⟩
  have h : ¬(c1text.length ≤ 3) := by decide
  rw [pySplitText, if_neg h, splitLoop_c1_start0]
  rfl

/-- C7: for every text no longer than chunk_size, _split_text returns
exactly the one-element list containing the text unchanged. -/
theorem splitText_short_c7 (text : PyStr) (chunk_size chunk_overlap fuel : Nat)
    (h : text.length ≤ chunk_size) :
    pySplitText text chunk_size chunk_overlap fuel = some [text] := by
  rw [pySplitText, if_pos h]

/-- Witness for C7 at a concrete input. -/
theorem splitText_short_c7_witness :
    pySplitText "hi".toList 500 50 0 = some ["hi".toList] :=
  splitText_short_c7 "hi".toList 500 50 0 (by decide)

/-- Counterexample to C8 as stated: the single-chunk short-circuit returns
the text unchanged, so a whitespace-only text yields a chunk with
whitespace that is empty after stripping. -/
theorem splitText_stripped_c8_counterexample :
    pySplitText [' '] 500 50 0 = some [[' ']] ∧ strip [' '] = [] := by
  constructor
  · rfl
  · rfl

/-- C8 amended: on the loop path (text longer than chunk_size), every
string in the returned sequence is already stripped and non-empty; only
the single-chunk short-circuit can return leading/trailing whitespace or
a blank chunk. -/
theorem splitText_stripped_c8 (text : PyStr) (chunk_size chunk_overlap fuel : Nat)
    (out : List PyStr) (hlong : chunk_size < text.length)
    (h : pySplitText text chunk_size chunk_overlap fuel = some out) :
    ∀ c ∈ out, strip c = c ∧ c ≠ [] := by
  rw [pySplitText, if_neg (by omega)] at h
  cases hsl : splitLoop text chunk_size chunk_overlap fuel 0 [] with
  | none => rw [hsl] at h; simp at h
  | some raw =>
    rw [hsl] at h
    simp only [Option.map_some', Option.some.injEq] at h
    have hstr := splitLoop_stripped text chunk_size chunk_overlap fuel 0 [] raw
      (by intro c hc; simp at hc) hsl
    intro c hc
    rw [← h] at hc
    have hmem := List.mem_filter.mp hc
    have hc1 : strip c = c := hstr c hmem.1
    refine ⟨hc1, ?_⟩
    intro hnil
    rw [hnil] at hmem
    simp [strip_nil] at hmem

/-- Witness for the amended C8 at a concrete input. -/
theorem splitText_stripped_c8_witness :
    strip ['x', 'x', 'x'] = ['x', 'x', 'x'] ∧ ['x', 'x', 'x'] ≠ ([] : PyStr) :=
  splitText_stripped_c8 "xxxxxxx".toList 3 0 10
    [['x', 'x', 'x'], ['x', 'x', 'x'], ['x']] (by decide) (by decide)
    ['x', 'x', 'x'] (by decide)

/-! ### Helper lemmas about rounding -/

lemma pyRound_ge_floor (x : ℚ) : ⌊x⌋ ≤ pyRound x := by
  unfold pyRound; split_ifs <;> omega

lemma pyRound_le_floor_add_one (x : ℚ) : pyRound x ≤ ⌊x⌋ + 1 := by
  unfold pyRound; split_ifs <;> omega

lemma pyRound_intCast (k : ℤ) : pyRound (k : ℚ) = k := by
  unfold pyRound
  rw [Int.floor_intCast]
  rw [if_pos]
  rw [sub_self]
  norm_num

lemma half_le_pyRound (x : ℚ) : x - 1 / 2 ≤ (pyRound x : ℚ) := by
  have h1 := Int.floor_le x
  have h2 := Int.lt_floor_add_one x
  unfold pyRound
  split_ifs <;> push_cast <;> linarith

lemma pyRound_le_half (x : ℚ) : (pyRound x : ℚ) ≤ x + 1 / 2 := by
  have h1 := Int.floor_le x
  have h2 := Int.lt_floor_add_one x
  unfold pyRound
  split_ifs <;> push_cast <;> linarith

lemma pyRound_mono {x y : ℚ} (h : x ≤ y) : pyRound x ≤ pyRound y := by
  rcases lt_or_eq_of_le (Int.floor_le_floor h) with hf | hf
  · calc pyRound x ≤ ⌊x⌋ + 1 := pyRound_le_floor_add_one x
      _ ≤ ⌊y⌋ := by omega
      _ ≤ pyRound y := pyRound_ge_floor y
  · unfold pyRound
    rw [← hf]
    split_ifs <;> first | omega | linarith

/-- C5: the distance-to-similarity conversion maps 0 to 1 and 2 to 0, is
monotonically non-increasing, and on distances in [0, 2] stays in [0, 1],
also after rounding to four decimal places. -/
theorem similarity_props_c5 :
    similarity 0 = 1 ∧ similarity 2 = 0 ∧
    (∀ d d' : ℚ, d ≤ d' → similarity d' ≤ similarity d) ∧
    (∀ d : ℚ, 0 ≤ d → d ≤ 2 →
      0 ≤ similarity d ∧ similarity d ≤ 1 ∧
      0 ≤ round4 (similarity d) ∧ round4 (similarity d) ≤ 1) := by
  refine ⟨?_, ?_, ?_, ?_⟩
  · unfold similarity
    rw [max_eq_right] <;> norm_num
  · unfold similarity
    norm_num
  · intro d d' h
    unfold similarity
    apply max_le_max le_rfl
    linarith
  · intro d h0 h2
    have hl : 0 ≤ similarity d := le_max_left 0 _
    have hu : similarity d ≤ 1 := by
      unfold similarity
      apply max_le (by norm_num)
      linarith
    refine ⟨hl, hu, ?_, ?_⟩
    · unfold round4
      apply div_nonneg _ (by norm_num)
      have hcast : ((0 : ℤ) : ℚ) ≤ similarity d * 10000 := by
        push_cast
        exact mul_nonneg hl (by norm_num)
      have hm := pyRound_mono hcast
      rw [pyRound_intCast] at hm
      exact_mod_cast hm
    · unfold round4
      rw [div_le_one (by norm_num)]
      have hcast : similarity d * 10000 ≤ ((10000 : ℤ) : ℚ) := by
        push_cast
        nlinarith
      have hm := pyRound_mono hcast
      rw [pyRound_intCast] at hm
      exact_mod_cast hm

/-- Witness for C5 at concrete inputs. -/
theorem similarity_props_c5_witness :
    0 ≤ round4 (similarity 1) ∧ round4 (similarity 1) ≤ 1 ∧
      similarity 2 ≤ similarity 0 := by
  obtain ⟨h1, h2, hmono, hrange⟩ := similarity_props_c5
  have h := hrange 1 (by norm_num) (by norm_num)
  exact ⟨h.2.2.1, h.2.2.2, hmono 0 2 (by norm_num)⟩

lemma sim_c6_val : similarity (19992 / 100000) = 90004 / 100000 := by
  unfold similarity
  rw [max_eq_right] <;> norm_num

lemma round4_c6_val : round4 (90004 / 100000) = 9 / 10 := by
  unfold round4 pyRound
  have hfl : ⌊(90004 / 100000 : ℚ) * 10000⌋ = 9000 := by norm_num
  rw [hfl]
  rw [if_pos (by norm_num)]
  norm_num

lemma pyQuery_c6_eval (thr : ℚ) (hthr : thr ≤ 90004 / 100000) :
    pyQuery ['q'] 1 thr [⟨['t'], ⟨['s'], ['f']⟩, 19992 / 100000⟩]
      = [⟨['t'], ⟨['s'], ['f']⟩, 9 / 10⟩] := by
  have hcond : thr ≤ similarity (19992 / 100000) := by
    rw [sim_c6_val]; exact hthr
  unfold pyQuery
  rw [if_neg (by decide), if_neg (by norm_num)]
  unfold queryLoop
  simp only [List.filterMap_cons, List.filterMap_nil, if_pos hcond]
  rw [sim_c6_val, round4_c6_val]

/-- Counterexample to C6 as stated: with scoreThreshold 0.90003 and a hit
at distance 0.19992 the pre-rounding similarity 0.90004 passes the filter,
but the stored similarity field is rounded down to 0.9, which is below the
threshold.  So not every returned result has similarity ≥ scoreThreshold. -/
theorem query_threshold_c6_counterexample :
    pyQuery ['q'] 1 (90003 / 100000) [⟨['t'], ⟨['s'], ['f']⟩, 19992 / 100000⟩]
        = [⟨['t'], ⟨['s'], ['f']⟩, 9 / 10⟩] ∧
      (9 / 10 : ℚ) < 90003 / 100000 := by
  constructor
  · exact pyQuery_c6_eval _ (by norm_num)
  · norm_num

/-- C6 amended: every result returned by query has pre-rounding similarity
≥ scoreThreshold, so its stored similarity field is ≥ scoreThreshold -
1/20000; and whenever scoreThreshold is an integer multiple of 1/10000
(in particular 0.9), the stored field is ≥ scoreThreshold itself. -/
theorem query_threshold_c6 (queryText : PyStr) (storeCount : Nat)
    (threshold : ℚ) (hits : List Hit) (r : QueryResult)
    (hr : r ∈ pyQuery queryText storeCount threshold hits) :
    threshold - 1 / 20000 ≤ r.similarity ∧
      (∀ k : ℤ, threshold = (k : ℚ) / 10000 → threshold ≤ r.similarity) := by
  unfold pyQuery at hr
  split_ifs at hr
  · simp at hr
  · simp at hr
  · unfold queryLoop at hr
    obtain ⟨h, hmem, hfh⟩ := List.mem_filterMap.mp hr
    by_cases hts : threshold ≤ similarity h.distance
    · rw [if_pos hts] at hfh
      have hre := Option.some.inj hfh
      have hsim : r.similarity = round4 (similarity h.distance) := by
        rw [← hre]
      constructor
      · rw [hsim]
        unfold round4
        have h1 := half_le_pyRound (similarity h.distance * 10000)
        have h2 : (similarity h.distance * 10000 - 1 / 2) / 10000 ≤
            ((pyRound (similarity h.distance * 10000) : ℚ)) / 10000 :=
          (div_le_div_iff_of_pos_right (by norm_num)).mpr h1
        have h3 : (similarity h.distance * 10000 - 1 / 2) / 10000 =
            similarity h.distance - 1 / 20000 := by ring
        linarith
      · intro k hk
        rw [hsim, hk]
        unfold round4
        apply (div_le_div_iff_of_pos_right (by norm_num : (0:ℚ) < 10000)).mpr
        have hk' : (k : ℚ) ≤ similarity h.distance * 10000 := by
          rw [hk] at hts
          exact (div_le_iff₀ (by norm_num)).mp hts
        have hm := pyRound_mono hk'
        rw [pyRound_intCast] at hm
        exact_mod_cast hm
    · rw [if_neg hts] at hfh
      exact absurd hfh (by simp)

/-- Witness for the amended C6 at a concrete input with threshold 0.9. -/
theorem query_threshold_c6_witness :
    (9 / 10 : ℚ) - 1 / 20000 ≤
        (QueryResult.mk ['t'] ⟨['s'], ['f']⟩ (9 / 10)).similarity ∧
      (9 / 10 : ℚ) ≤ (QueryResult.mk ['t'] ⟨['s'], ['f']⟩ (9 / 10)).similarity := by
  have h := query_threshold_c6 ['q'] 1 (9 / 10)
    [⟨['t'], ⟨['s'], ['f']⟩, 19992 / 100000⟩]
    ⟨['t'], ⟨['s'], ['f']⟩, 9 / 10⟩
    (by rw [pyQuery_c6_eval (9 / 10) (by norm_num)]
        exact List.mem_singleton.mpr rfl)
  exact ⟨h.1, h.2 9000 (by norm_num)⟩

/-! ### Indexing theorems -/

lemma indexDocument_ok (path : PyStr) (raws : List RawChunk)
    (embedR : List PyStr → Except PyStr (List (List ℚ)))
    (addR : Except PyStr Unit) (chunk_size chunk_overlap fuel : Nat)
    (store : Store) :
    indexDocument path (Except.ok raws) embedR addR chunk_size chunk_overlap fuel store
      = afterBuild path (buildAllChunks chunk_size chunk_overlap fuel raws)
          embedR addR store := rfl

/-- C3: when the flattened chunk list is empty, index_document returns
success false with zero chunks and a descriptive message, and the store is
completely untouched (no deletion, no insertion). -/
theorem index_empty_c3 (path : PyStr)
    (embedR : List PyStr → Except PyStr (List (List ℚ)))
    (addR : Except PyStr Unit) (chunk_size chunk_overlap fuel : Nat)
    (store : Store) (raws : List RawChunk)
    (h : buildAllChunks chunk_size chunk_overlap fuel raws = some []) :
    indexDocument path (Except.ok raws) embedR addR chunk_size chunk_overlap fuel store
      = some (⟨false, 0, emptyMsg⟩, store) := by
  rw [indexDocument_ok, h]
  rfl

/-- Witness for C3: a raw chunk that is whitespace-only yields an empty
flattened list and an unchanged store. -/
theorem index_empty_c3_witness :
    indexDocument ['p'] (Except.ok [⟨[' '], ⟨['s'], ['f']⟩⟩])
        (fun ts => Except.ok (ts.map fun _ => []))
        (Except.ok ()) 500 50 0 []
      = some (⟨false, 0, emptyMsg⟩, []) :=
  index_empty_c3 ['p'] (fun ts => Except.ok (ts.map fun _ => []))
    (Except.ok ()) 500 50 0 [] [⟨[' '], ⟨['s'], ['f']⟩⟩] (by rfl)

/-- C4: every failure of the loader, the embedding call or the store-add
call inside index_document is converted into the failure result
success false, chunks 0, message 索引失敗：cause; and any returned
non-success result always carries chunks 0.  (index_document is a total
function into results in this model: no exception propagates.) -/
theorem index_catches_c4 (path e : PyStr) (raws : List RawChunk)
    (embedR : List PyStr → Except PyStr (List (List ℚ)))
    (addR : Except PyStr Unit) (chunk_size chunk_overlap fuel : Nat)
    (store : Store) :
    (indexDocument path (Except.error e) embedR addR chunk_size chunk_overlap fuel store
        = some (⟨false, 0, failMsg e⟩, store)) ∧
    (∀ c cks, buildAllChunks chunk_size chunk_overlap fuel raws = some (c :: cks) →
      embedR ((c :: cks).map Prod.fst) = Except.error e →
      indexDocument path (Except.ok raws) embedR addR chunk_size chunk_overlap fuel store
        = some (⟨false, 0, failMsg e⟩, store)) ∧
    (∀ c cks embs, buildAllChunks chunk_size chunk_overlap fuel raws = some (c :: cks) →
      embedR ((c :: cks).map Prod.fst) = Except.ok embs →
      indexDocument path (Except.ok raws) embedR (Except.error e)
          chunk_size chunk_overlap fuel store
        = some (⟨false, 0, failMsg e⟩, deleteDocStore path store)) ∧
    (∀ res st',
      indexDocument path (Except.ok raws) embedR addR chunk_size chunk_overlap fuel store
        = some (res, st') → res.success = false → res.chunks = 0) := by
  refine ⟨rfl, ?_, ?_, ?_⟩
  · intro c cks hb he
    rw [indexDocument_ok, hb]
    simp only [afterBuild]
    rw [he]
    rfl
  · intro c cks embs hb he
    rw [indexDocument_ok, hb]
    simp only [afterBuild]
    rw [he]
    rfl
  · intro res st' h hsf
    rw [indexDocument_ok] at h
    cases hbb : buildAllChunks chunk_size chunk_overlap fuel raws with
    | none => rw [hbb] at h; exact absurd h (by simp [afterBuild])
    | some l =>
      rw [hbb] at h
      cases l with
      | nil =>
        simp only [afterBuild, Option.some.injEq, Prod.mk.injEq] at h
        rw [← h.1]
      | cons c cks =>
        simp only [afterBuild, Option.some.injEq] at h
        unfold afterEmbed at h
        cases hem : embedR ((c :: cks).map Prod.fst) with
        | error e' =>
          rw [hem] at h
          simp only [Prod.mk.injEq] at h
          rw [← h.1]
        | ok embs =>
          rw [hem] at h
          cases addR with
          | error e' =>
            simp only [Prod.mk.injEq] at h
            rw [← h.1]
          | ok u =>
            simp only [Prod.mk.injEq] at h
            rw [← h.1] at hsf
            simp at hsf

/-- Witness for C4: a failing embedding call at a concrete input. -/
theorem index_catches_c4_witness :
    indexDocument ['p'] (Except.ok [⟨['h', 'i'], ⟨['s'], ['f']⟩⟩])
        (fun _ => Except.error ['x']) (Except.ok ()) 500 50 0 []
      = some (⟨false, 0, failMsg ['x']⟩, []) :=
  (index_catches_c4 ['p'] ['x'] [⟨['h', 'i'], ⟨['s'], ['f']⟩⟩]
    (fun _ => Except.error ['x']) (Except.ok ()) 500 50 0 []).2.1
    (['h', 'i'], ⟨['s'], ['f']⟩) [] (by rfl) (by rfl)

/-- C9: embeddings are computed before the delete step, so when the
embedding call fails, index_document reports failure with zero chunks and
the store is left completely unchanged: the previously indexed chunks of
the source are still there. -/
theorem index_embed_fail_c9 (path e : PyStr) (raws : List RawChunk)
    (embedR : List PyStr → Except PyStr (List (List ℚ)))
    (addR : Except PyStr Unit) (chunk_size chunk_overlap fuel : Nat)
    (store : Store) (c : PyStr × Meta) (cks : List (PyStr × Meta))
    (hb : buildAllChunks chunk_size chunk_overlap fuel raws = some (c :: cks))
    (he : embedR ((c :: cks).map Prod.fst) = Except.error e) :
    indexDocument path (Except.ok raws) embedR addR chunk_size chunk_overlap fuel store
      = some (⟨false, 0, failMsg e⟩, store) := by
  rw [indexDocument_ok, hb]
  simp only [afterBuild]
  rw [he]
  rfl

/-- Witness for C9: the prior generation (a stored record of the same
source) survives a failing embedding call untouched. -/
theorem index_embed_fail_c9_witness :
    indexDocument ['q'] (Except.ok [⟨['h', 'i'], ⟨['q'], ['q']⟩⟩])
        (fun _ => Except.error ['b']) (Except.ok ()) 500 50 0
        [⟨['i', 'd'], [], ['o', 'l', 'd'], ⟨['q'], ['q']⟩⟩]
      = some (⟨false, 0, failMsg ['b']⟩,
          [⟨['i', 'd'], [], ['o', 'l', 'd'], ⟨['q'], ['q']⟩⟩]) :=
  index_embed_fail_c9 ['q'] ['b'] [⟨['h', 'i'], ⟨['q'], ['q']⟩⟩]
    (fun _ => Except.error ['b']) (Except.ok ()) 500 50 0
    [⟨['i', 'd'], [], ['o', 'l', 'd'], ⟨['q'], ['q']⟩⟩]
    (['h', 'i'], ⟨['q'], ['q']⟩) [] (by rfl) (by rfl)

/-! ### Helper lemmas about decimal rendering and ids -/

/-- Value of a little-endian list of decimal digits. -/
def ofDecimalDigits : List Nat → Nat
  | [] => 0
  | d :: ds => d + 10 * ofDecimalDigits ds

lemma decimalAux_value : ∀ fuel n, n ≤ fuel →
    ofDecimalDigits (decimalAux fuel n) = n := by
  intro fuel
  induction fuel with
  | zero =>
    intro n hn
    interval_cases n
    rfl
  | succ f ih =>
    intro n hn
    by_cases h0 : n = 0
    · subst h0; rfl
    · have hdiv : n / 10 ≤ f := by
        have := Nat.div_lt_self (Nat.pos_of_ne_zero h0) (by norm_num : 1 < 10)
        omega
      simp only [decimalAux, if_neg h0, ofDecimalDigits]
      rw [ih _ hdiv]
      exact Nat.mod_add_div n 10

lemma decimalAux_digits_lt : ∀ fuel n, ∀ d ∈ decimalAux fuel n, d < 10 := by
  intro fuel
  induction fuel with
  | zero => intro n d hd; simp [decimalAux] at hd
  | succ f ih =>
    intro n d hd
    by_cases h0 : n = 0
    · subst h0; simp [decimalAux] at hd
    · simp only [decimalAux, if_neg h0, List.mem_cons] at hd
      rcases hd with rfl | hd
      · exact Nat.mod_lt n (by norm_num)
      · exact ih _ d hd

/-- The numeric value of a decimal digit character. -/
def charVal (c : Char) : Nat := c.toNat - 48

/-- Decode a big-endian decimal string back to its value. -/
def decodeDecimal (s : PyStr) : Nat := ofDecimalDigits (s.reverse.map charVal)

lemma charVal_digit : ∀ d, d < 10 → charVal (hexChars.getD d '0') = d := by decide

lemma decodeDecimal_decimal (n : Nat) : decodeDecimal (decimal n) = n := by
  unfold decimal
  by_cases h0 : n = 0
  · subst h0; rfl
  · rw [if_neg h0]
    unfold decodeDecimal
    rw [List.reverse_reverse, List.map_map]
    have hcongr : (decimalAux n n).map (charVal ∘ fun d => hexChars.getD d '0')
        = (decimalAux n n).map id := by
      apply List.map_congr_left
      intro d hd
      exact charVal_digit d (decimalAux_digits_lt n n d hd)
    rw [hcongr, List.map_id]
    exact decimalAux_value n n le_rfl

lemma decimal_injective : Function.Injective decimal := by
  intro m n h
  have := congrArg decodeDecimal h
  rwa [decodeDecimal_decimal, decodeDecimal_decimal] at this

lemma getDocId_injective (path : PyStr) : Function.Injective (getDocId path) := by
  intro i j h
  unfold getDocId at h
  exact decimal_injective (List.append_cancel_left h)

lemma hexEncode_length (bs : List Nat) : (hexEncode bs).length = 2 * bs.length := by
  induction bs with
  | nil => rfl
  | cons b t ih =>
    unfold hexEncode at ih ⊢
    rw [List.flatMap_cons, List.length_append, ih]
    simp
    omega

lemma md5Digest_length (msg : List Nat) : (md5Digest msg).length = 16 := by
  unfold md5Digest toLEBytes4
  simp

lemma md5hex_length (s : PyStr) : (md5hex s).length = 32 := by
  unfold md5hex
  rw [hexEncode_length, md5Digest_length]

lemma mem_hexEncode (bs : List Nat) : ∀ c ∈ hexEncode bs, c ∈ hexChars := by
  intro c hc
  obtain ⟨b, _, hcb⟩ := List.mem_flatMap.mp hc
  have hmem : ∀ k : Nat, hexDigit k ∈ hexChars := by
    intro k
    unfold hexDigit
    rw [List.getD_eq_getElem hexChars '0'
      (by have := Nat.mod_lt k (show 0 < 16 by norm_num); simpa using this)]
    exact List.getElem_mem _
  rcases List.mem_cons.mp hcb with rfl | hcb'
  · exact hmem _
  · rcases List.mem_cons.mp hcb' with rfl | h
    · exact hmem _
    · simp at h

/-- C10: _get_doc_id is a pure function of (path, ordinal) of the form
8-hex-character-prefix-of-md5(path), underscore, decimal ordinal; the
prefix always has exactly 8 lowercase hex characters; and for a fixed
path distinct ordinals always get distinct ids. -/
theorem getDocId_form_c10 :
    (∀ (path : PyStr) (i : Nat),
      getDocId path i = (md5hex path).take 8 ++ ['_'] ++ decimal i) ∧
    (∀ path : PyStr, ((md5hex path).take 8).length = 8 ∧
      ∀ c ∈ (md5hex path).take 8, c ∈ hexChars) ∧
    (∀ (path : PyStr) (i j : Nat), i ≠ j → getDocId path i ≠ getDocId path j) := by
  refine ⟨fun path i => rfl, fun path => ⟨?_, ?_⟩, fun path i j hij heq => ?_⟩
  · rw [List.length_take, md5hex_length]
    norm_num
  · intro c hc
    exact mem_hexEncode _ c (List.mem_of_mem_take hc)
  · exact hij (getDocId_injective path heq)

/-- Witness for C10 at concrete inputs. -/
theorem getDocId_form_c10_witness :
    getDocId ['a'] 3 = (md5hex ['a']).take 8 ++ ['_'] ++ decimal 3 ∧
    ((md5hex ['a']).take 8).length = 8 ∧
    getDocId ['a'] 0 ≠ getDocId ['a'] 1 :=
  ⟨getDocId_form_c10.1 ['a'] 3, (getDocId_form_c10.2.1 ['a']).1,
    getDocId_form_c10.2.2 ['a'] 0 1 (by norm_num)⟩

/-! ### Helper lemmas about the store and re-indexing -/

lemma chunksFor_delete (path : PyStr) (s : Store) :
    chunksFor path (deleteDocStore path s) = [] := by
  unfold chunksFor deleteDocStore
  rw [List.filter_eq_nil_iff]
  intro r hr hsrc
  obtain ⟨hrs, hnc⟩ := List.mem_filter.mp hr
  have hmatch : matchesDoc path r.meta = true := by
    unfold matchesDoc
    rw [hsrc]
    simp
  have hid : r.id ∈ idsToDelete path s := by
    unfold idsToDelete
    exact List.mem_map.mpr ⟨r, List.mem_filter.mpr ⟨hrs, hmatch⟩, rfl⟩
  simp at hnc
  exact hnc hid

lemma buildAllChunks_source (path : PyStr) (chunk_size chunk_overlap fuel : Nat) :
    ∀ (raws : List RawChunk) (allChunks : List (PyStr × Meta)),
      (∀ raw ∈ raws, raw.meta.source = path) →
      buildAllChunks chunk_size chunk_overlap fuel raws = some allChunks →
      ∀ c ∈ allChunks, c.2.source = path := by
  intro raws
  induction raws with
  | nil =>
    intro allChunks _ h c hc
    simp only [buildAllChunks, Option.some.injEq] at h
    rw [← h] at hc
    simp at hc
  | cons raw rest ih =>
    intro allChunks hsrc h c hc
    simp only [buildAllChunks] at h
    cases hsp : pySplitText raw.text chunk_size chunk_overlap fuel with
    | none => rw [hsp] at h; simp at h
    | some subs =>
      cases hbr : buildAllChunks chunk_size chunk_overlap fuel rest with
      | none => rw [hsp, hbr] at h; simp at h
      | some acc =>
        rw [hsp, hbr] at h
        simp only [Option.some.injEq] at h
        rw [← h] at hc
        rcases List.mem_append.mp hc with h1 | h2
        · obtain ⟨s', hs', hc'⟩ := List.mem_map.mp h1
          rw [← hc']
          exact hsrc raw (List.mem_cons_self raw rest)
        · exact ih acc (fun r hr => hsrc r (List.mem_cons_of_mem _ hr)) hbr c h2

lemma newRecords_mem (path : PyStr) (allChunks : List (PyStr × Meta))
    (embs : List (List ℚ)) :
    ∀ rec ∈ newRecords path allChunks embs, ∃ i, i < allChunks.length ∧
      rec = ⟨getDocId path i, embs.getD i [],
        (allChunks.getD i ([], ⟨[], []⟩)).1, (allChunks.getD i ([], ⟨[], []⟩)).2⟩ := by
  intro rec hrec
  unfold newRecords at hrec
  obtain ⟨i, hi, hrec'⟩ := List.mem_map.mp hrec
  exact ⟨i, List.mem_range.mp hi, hrec'.symm⟩

lemma newRecords_source (path : PyStr) (allChunks : List (PyStr × Meta))
    (embs : List (List ℚ)) (hsc : ∀ c ∈ allChunks, c.2.source = path) :
    ∀ rec ∈ newRecords path allChunks embs, rec.meta.source = path := by
  intro rec hrec
  obtain ⟨i, hi, rfl⟩ := newRecords_mem path allChunks embs rec hrec
  have hm : allChunks.getD i ([], ⟨[], []⟩) ∈ allChunks := by
    rw [List.getD_eq_getElem _ _ hi]
    exact List.getElem_mem hi
  exact hsc _ hm

lemma chunksFor_append (path : PyStr) (a b : Store) :
    chunksFor path (a ++ b) = chunksFor path a ++ chunksFor path b :=
  List.filter_append _ _

lemma chunksFor_newRecords (path : PyStr) (allChunks : List (PyStr × Meta))
    (embs : List (List ℚ)) (hsc : ∀ c ∈ allChunks, c.2.source = path) :
    chunksFor path (newRecords path allChunks embs)
      = newRecords path allChunks embs := by
  unfold chunksFor
  rw [List.filter_eq_self]
  intro r hr
  have := newRecords_source path allChunks embs hsc r hr
  simp [this]

lemma newRecords_ids (path : PyStr) (allChunks : List (PyStr × Meta))
    (embs : List (List ℚ)) :
    (newRecords path allChunks embs).map Record.id
      = (List.range allChunks.length).map (getDocId path) := by
  unfold newRecords
  rw [List.map_map]
  apply List.map_congr_left
  intro i _
  rfl

/-- C2: indexing the same source path twice with unchanged content (same
raw chunks, same embedder) leaves, after the second run, exactly the same
list of chunks stored for that source as after the first run — same count,
same ids, no duplicates and no leftovers — because ids are a deterministic
function of (path, ordinal) and the old generation is deleted before the
new one is inserted.  The loader contract guarantees every raw chunk's
metadata.source is the indexed path. -/
theorem index_idempotent_c2 (path : PyStr) (raws : List RawChunk)
    (embedR : List PyStr → Except PyStr (List (List ℚ)))
    (chunk_size chunk_overlap fuel : Nat) (s0 : Store)
    (r1 : IndexResult) (s1 : Store) (r2 : IndexResult) (s2 : Store)
    (hsrc : ∀ raw ∈ raws, raw.meta.source = path)
    (h1 : indexDocument path (Except.ok raws) embedR (Except.ok ())
      chunk_size chunk_overlap fuel s0 = some (r1, s1))
    (h2 : indexDocument path (Except.ok raws) embedR (Except.ok ())
      chunk_size chunk_overlap fuel s1 = some (r2, s2))
    (hsucc : r1.success = true) :
    r2 = r1 ∧
    chunksFor path s2 = chunksFor path s1 ∧
    (chunksFor path s1).length = r1.chunks ∧
    ((chunksFor path s1).map Record.id).Nodup := by
  rw [indexDocument_ok] at h1 h2
  cases hbb : buildAllChunks chunk_size chunk_overlap fuel raws with
  | none => rw [hbb] at h1; exact absurd h1 (by simp [afterBuild])
  | some l =>
    rw [hbb] at h1 h2
    cases l with
    | nil =>
      simp only [afterBuild, Option.some.injEq, Prod.mk.injEq] at h1
      rw [← h1.1] at hsucc
      simp at hsucc
    | cons c cks =>
      simp only [afterBuild, Option.some.injEq] at h1 h2
      cases hem : embedR ((c :: cks).map Prod.fst) with
      | error e =>
        rw [hem] at h1
        simp only [afterEmbed, Prod.mk.injEq] at h1
        rw [← h1.1] at hsucc
        simp at hsucc
      | ok embs =>
        rw [hem] at h1 h2
        simp only [afterEmbed, Prod.mk.injEq] at h1 h2
        obtain ⟨hr1, hs1⟩ := h1
        obtain ⟨hr2, hs2⟩ := h2
        have hAll : ∀ cc ∈ (c :: cks), cc.2.source = path :=
          buildAllChunks_source path chunk_size chunk_overlap fuel raws
            (c :: cks) hsrc hbb
        subst hs1
        subst hs2
        subst hr1
        subst hr2
        refine ⟨rfl, ?_, ?_, ?_⟩
        · rw [chunksFor_append, chunksFor_append, chunksFor_delete,
            chunksFor_delete]
        · rw [chunksFor_append, chunksFor_delete, List.nil_append,
            chunksFor_newRecords path _ embs hAll]
          unfold newRecords
          rw [List.length_map, List.length_range]
        · rw [chunksFor_append, chunksFor_delete, List.nil_append,
            chunksFor_newRecords path _ embs hAll, newRecords_ids]
          exact List.Nodup.map (getDocId_injective path) (List.nodup_range _)

/-- The concrete pieces for the C2 witness. -/
def c2meta : Meta := ⟨['a'], ['a']⟩

def c2raws : List RawChunk := [⟨['h', 'i'], c2meta⟩]

def c2embedR : List PyStr → Except PyStr (List (List ℚ)) :=
  fun ts => Except.ok (ts.map fun _ => [])

def c2rec : Record := ⟨getDocId ['a'] 0, [], ['h', 'i'], c2meta⟩

/-- Witness for C2 at a concrete two-run instance. -/
theorem index_idempotent_c2_witness :
    (⟨true, 1, okMsg 1⟩ : IndexResult) = ⟨true, 1, okMsg 1⟩ ∧
    chunksFor ['a'] [c2rec] = chunksFor ['a'] [c2rec] ∧
    (chunksFor ['a'] [c2rec]).length = 1 ∧
    ((chunksFor ['a'] [c2rec]).map Record.id).Nodup :=
  index_idempotent_c2 ['a'] c2raws c2embedR 500 50 0 []
    ⟨true, 1, okMsg 1⟩ [c2rec] ⟨true, 1, okMsg 1⟩ [c2rec]
    (by decide) (by rfl) (by rfl) rfl
